import Mathlib

/-!
Shallow embedding of the fractal renderer (src/main.cpp).

Machine doubles are modelled by exact rationals; the escape comparisons
abs(v) < 2 and abs(v) > 2 are modelled by the squared comparisons
normSq v < 4 and normSq v > 4, which agree with correctly rounded sqrt.
The pixel buffer is modelled as a total map from byte addresses to byte
values; the three worker tasks of generate_pixels write disjoint rows, and
are serialised in launch order.
-/

namespace Fractals

/-- Truncation toward zero of a rational, the semantics of a C++
static_cast from a floating value to an integer type. -/
def cppTrunc (q : ℚ) : ℤ :=
  if 0 ≤ q then ⌊q⌋ else -⌊-q⌋

/-- DenormalizeInt instantiated at Int_type = uint8_t (max = 255):
static_cast of float_value * 255 to a byte.  The cast truncates toward
zero; the final reduction mod 256 totalises the out-of-range case, which
is undefined behaviour in the source. -/
def DenormalizeInt (float_value : ℚ) : ℕ :=
  (cppTrunc (float_value * 255)).toNat % 256

/-- NormalizeInt instantiated at Int_type = uint8_t: int_value * (1.0/255). -/
def NormalizeInt (int_value : ℕ) : ℚ :=
  (int_value : ℚ) * (1 / 255)

/-- The Colour struct: three 8-bit channels kept as naturals. -/
structure Colour where
  red : ℕ
  green : ℕ
  blue : ℕ
deriving DecidableEq

/-- The Colour(double, double, double) constructor overload: each channel
is denormalized from a [0,1] rational. -/
def Colour.ofNormalized (r g b : ℚ) : Colour :=
  ⟨DenormalizeInt r, DenormalizeInt g, DenormalizeInt b⟩

/-- Complex numbers over ℚ, modelling std::complex of double. -/
structure ComplexQ where
  re : ℚ
  im : ℚ
deriving DecidableEq

instance : Add ComplexQ :=
  ⟨fun a b => ⟨a.re + b.re, a.im + b.im⟩⟩

instance : Mul ComplexQ :=
  ⟨fun a b => ⟨a.re * b.re - a.im * b.im, a.re * b.im + a.im * b.re⟩⟩

/-- Squared magnitude; abs(v) < 2 in the source is normSq v < 4 here. -/
def ComplexQ.normSq (v : ComplexQ) : ℚ :=
  v.re * v.re + v.im * v.im

/-- The escape-time loop shared verbatim by mandelbrot (lines 91-93) and
julia (lines 101-103): for (; i < fuel and abs(v) < 2; ++i) v = v*v + c.
Returns the number of iterations performed and the final v. -/
def escapeSteps (c : ComplexQ) : ℕ → ComplexQ → ℕ × ComplexQ
  | 0, v => (0, v)
  | n + 1, v =>
    if v.normSq < 4 then
      let r := escapeSteps c n (v * v + c)
      (r.1 + 1, r.2)
    else (0, v)

/-- julia(v, c) from src/main.cpp lines 100-108. -/
def julia (v c : ComplexQ) : Colour :=
  let r := escapeSteps c 1000 v
  let i_scaled : ℚ := min 1 ((r.1 : ℚ) / 200)
  if r.2.normSq > 4 then Colour.ofNormalized i_scaled i_scaled i_scaled
  else Colour.ofNormalized 0 0 0

/-- mandelbrot(x, y) from src/main.cpp lines 88-98. -/
def mandelbrot (x y : ℚ) : Colour :=
  let c : ComplexQ := ⟨x * 4 - 2, y * 4 - 2⟩
  let r := escapeSteps c 1000 ⟨0, 0⟩
  let i_scaled : ℚ := min 1 ((r.1 : ℚ) / 200)
  if r.2.normSq > 4 then Colour.ofNormalized i_scaled i_scaled i_scaled
  else Colour.ofNormalized 0 0 0

/-- gradient(x, y) from src/main.cpp line 86. -/
def gradient (x y : ℚ) : Colour :=
  Colour.ofNormalized x y 0

/-- The pixel buffer: a total map from byte addresses to byte values. -/
def Buffer : Type := ℕ → ℕ

/-- Store one byte at address a. -/
def writeByte (buf : Buffer) (a v : ℕ) : Buffer :=
  fun addr => if addr = a then v else buf addr

/-- The four byte stores of the inner loop body (src/main.cpp lines 69-72):
address[0] = 255; address[1] = blue; address[2] = green; address[3] = red. -/
def writePixel (buf : Buffer) (addr : ℕ) (c : Colour) : Buffer :=
  writeByte (writeByte (writeByte (writeByte buf addr 255)
    (addr + 1) c.blue) (addr + 2) c.green) (addr + 3) c.red

/-- The colour computed for row i, column j: f(j / width, i / height) with
exact division standing for the double divisions of lines 64 and 67. -/
def pixelColour (f : ℚ → ℚ → Colour) (width height j i : ℕ) : Colour :=
  f ((j : ℚ) / (width : ℚ)) ((i : ℚ) / (height : ℚ))

/-- The inner column loop of the lambda in generate_pixels, writing the
first n columns of row i at addresses i*pitch + j*4. -/
def fillRow (f : ℚ → ℚ → Colour) (width height pitch i : ℕ) :
    ℕ → Buffer → Buffer
  | 0, buf => buf
  | n + 1, buf =>
    writePixel (fillRow f width height pitch i n buf)
      (i * pitch + n * 4) (pixelColour f width height n i)

/-- The outer row loop of the lambda, run on the band of count rows
starting at row start (rows [start, start + count)). -/
def fillBand (f : ℚ → ℚ → Colour) (width height pitch start : ℕ) :
    ℕ → Buffer → Buffer
  | 0, buf => buf
  | n + 1, buf =>
    fillRow f width height pitch (start + n) width
      (fillBand f width height pitch start n buf)

/-- The dispatch loop of generate_pixels (lines 78-81): thread t runs the
lambda on rows [t*height/N, (t+1)*height/N).  The workers write disjoint
rows, so the concurrent execution is serialised in launch order. -/
def runThreads (f : ℚ → ℚ → Colour) (width height pitch N : ℕ) :
    ℕ → Buffer → Buffer
  | 0, buf => buf
  | t + 1, buf =>
    fillBand f width height pitch (t * height / N)
      ((t + 1) * height / N - t * height / N)
      (runThreads f width height pitch N t buf)

/-- generate_pixels(buffer, width, height, pitch, f) from src/main.cpp
lines 57-84, with num_threads = 3. -/
def generate_pixels (buffer : Buffer) (width height pitch : ℕ)
    (f : ℚ → ℚ → Colour) : Buffer :=
  runThreads f width height pitch 3 3 buffer

/-- First row of worker k's band: k * height / N (line 80). -/
def bandStart (height N k : ℕ) : ℕ :=
  k * height / N

/-- One past the last row of worker k's band: (k+1) * height / N (line 81). -/
def bandEnd (height N k : ℕ) : ℕ :=
  (k + 1) * height / N

/-- Outcomes of the SDL calls made during setup, supplied as an
environment: the return code of SDL_Init, whether each constructor call
returns a non-null pointer, and the message SDL_GetError would produce. -/
structure SdlEnv where
  initResult : Int
  windowPtr : Option Unit
  rendererPtr : Option Unit
  texturePtr : Option Unit
  sdlError : String
deriving DecidableEq

/-- make_unique_ptr_sdl (src/main.cpp lines 11-20): a null constructor
result raises a runtime_error carrying SDL_GetError(). -/
def make_unique_ptr_sdl (ctorResult : Option Unit) (sdlError : String) :
    Except String Unit :=
  match ctorResult with
  | none => Except.error sdlError
  | some _ => Except.ok ()

/-- The Initialise_sdl constructor (lines 24-28): a nonzero SDL_Init
return raises a runtime_error carrying SDL_GetError(). -/
def initialise_sdl (initResult : Int) (sdlError : String) :
    Except String Unit :=
  if initResult ≠ 0 then Except.error sdlError else Except.ok ()

/-- The resource-acquisition prefix of main's try block (lines 119-135):
Initialise_sdl, then window, renderer and texture creation, each of which
may throw.  The render loop that follows is not modelled. -/
def mainSetup (env : SdlEnv) : Except String Unit := do
  initialise_sdl env.initResult env.sdlError
  _ ← make_unique_ptr_sdl env.windowPtr env.sdlError
  _ ← make_unique_ptr_sdl env.rendererPtr env.sdlError
  _ ← make_unique_ptr_sdl env.texturePtr env.sdlError
  Except.ok ()

/-- The catch handler of main (lines 177-181): a runtime_error is printed
once and main returns 1; otherwise main would continue its loop.  The
result is the exit status paired with the message printed to stderr. -/
def mainExit (env : SdlEnv) : ℕ × Option String :=
  match mainSetup env with
  | Except.error e => (1, some e)
  | Except.ok _ => (0, none)

/-! Helper lemmas about the embedded definitions. -/

theorem ComplexQ.mul_def (a b : ComplexQ) :
    a * b = ⟨a.re * b.re - a.im * b.im, a.re * b.im + a.im * b.re⟩ := rfl

theorem ComplexQ.add_def (a b : ComplexQ) :
    a + b = ⟨a.re + b.re, a.im + b.im⟩ := rfl

theorem escapeSteps_stop (c v : ComplexQ) (n : ℕ) (h : ¬ v.normSq < 4) :
    escapeSteps c (n + 1) v = (0, v) := by
  simp [escapeSteps, h]

theorem escapeSteps_step (c v : ComplexQ) (n : ℕ) (h : v.normSq < 4) :
    escapeSteps c (n + 1) v =
      ((escapeSteps c n (v * v + c)).1 + 1, (escapeSteps c n (v * v + c)).2) := by
  simp [escapeSteps, h]

theorem escapeSteps_zero_zero (n : ℕ) :
    escapeSteps ⟨0, 0⟩ n ⟨0, 0⟩ = (n, ⟨0, 0⟩) := by
  induction n with
  | zero => rfl
  | succ n ih =>
    rw [escapeSteps_step ⟨0, 0⟩ ⟨0, 0⟩ n (by norm_num [ComplexQ.normSq])]
    have hv : (⟨0, 0⟩ : ComplexQ) * ⟨0, 0⟩ + ⟨0, 0⟩ = ⟨0, 0⟩ := by
      simp [ComplexQ.mul_def, ComplexQ.add_def]
    rw [hv, ih]

theorem DenormalizeInt_zero : DenormalizeInt 0 = 0 := by
  norm_num [DenormalizeInt, cppTrunc]

theorem ofNormalized_zero : Colour.ofNormalized 0 0 0 = Colour.mk 0 0 0 := by
  simp [Colour.ofNormalized, DenormalizeInt_zero]

theorem escapeSteps_c_three_halves :
    escapeSteps ⟨3/2, 0⟩ 1000 ⟨0, 0⟩ = (2, ⟨15/4, 0⟩) := by
  have s1 : (⟨0, 0⟩ : ComplexQ) * ⟨0, 0⟩ + ⟨3/2, 0⟩ = ⟨3/2, 0⟩ := by
    simp [ComplexQ.mul_def, ComplexQ.add_def]
  have s2 : (⟨3/2, 0⟩ : ComplexQ) * ⟨3/2, 0⟩ + ⟨3/2, 0⟩ = ⟨15/4, 0⟩ := by
    simp [ComplexQ.mul_def, ComplexQ.add_def]
    norm_num
  rw [show (1000 : ℕ) = 999 + 1 by decide,
    escapeSteps_step ⟨3/2, 0⟩ ⟨0, 0⟩ 999 (by norm_num [ComplexQ.normSq]), s1,
    show (999 : ℕ) = 998 + 1 by decide,
    escapeSteps_step ⟨3/2, 0⟩ ⟨3/2, 0⟩ 998 (by norm_num [ComplexQ.normSq]), s2,
    show (998 : ℕ) = 997 + 1 by decide,
    escapeSteps_stop ⟨3/2, 0⟩ ⟨15/4, 0⟩ 997 (by norm_num [ComplexQ.normSq])]

theorem mandelbrot_at_78_12 : mandelbrot (7/8) (1/2) = Colour.mk 2 2 2 := by
  have hc : (⟨(7:ℚ)/8 * 4 - 2, (1:ℚ)/2 * 4 - 2⟩ : ComplexQ) = ⟨3/2, 0⟩ := by
    norm_num
  simp only [mandelbrot]
  rw [hc, escapeSteps_c_three_halves]
  norm_num [ComplexQ.normSq, min_def, Colour.ofNormalized, DenormalizeInt, cppTrunc]
  decide

theorem julia_at_three_halves : julia ⟨3/2, 0⟩ ⟨0, 0⟩ = Colour.mk 1 1 1 := by
  have s1 : (⟨3/2, 0⟩ : ComplexQ) * ⟨3/2, 0⟩ + ⟨0, 0⟩ = ⟨9/4, 0⟩ := by
    simp [ComplexQ.mul_def, ComplexQ.add_def]
    norm_num
  have e1 : escapeSteps ⟨0, 0⟩ 1000 ⟨3/2, 0⟩ = (1, ⟨9/4, 0⟩) := by
    rw [show (1000 : ℕ) = 999 + 1 by decide,
      escapeSteps_step ⟨0, 0⟩ ⟨3/2, 0⟩ 999 (by norm_num [ComplexQ.normSq]), s1,
      show (999 : ℕ) = 998 + 1 by decide,
      escapeSteps_stop ⟨0, 0⟩ ⟨9/4, 0⟩ 998 (by norm_num [ComplexQ.normSq])]
  simp only [julia]
  rw [e1]
  norm_num [ComplexQ.normSq, min_def, Colour.ofNormalized, DenormalizeInt, cppTrunc]

theorem escapeSteps_c_two_two :
    escapeSteps ⟨2, 2⟩ 1000 ⟨0, 0⟩ = (1, ⟨2, 2⟩) := by
  have s1 : (⟨0, 0⟩ : ComplexQ) * ⟨0, 0⟩ + ⟨2, 2⟩ = ⟨2, 2⟩ := by
    simp [ComplexQ.mul_def, ComplexQ.add_def]
  rw [show (1000 : ℕ) = 999 + 1 by decide,
    escapeSteps_step ⟨2, 2⟩ ⟨0, 0⟩ 999 (by norm_num [ComplexQ.normSq]), s1,
    show (999 : ℕ) = 998 + 1 by decide,
    escapeSteps_stop ⟨2, 2⟩ ⟨2, 2⟩ 998 (by norm_num [ComplexQ.normSq])]

theorem DenormalizeInt_eq_floor (q : ℚ) (h0 : 0 ≤ q) (h1 : q ≤ 1) :
    DenormalizeInt q = (⌊q * 255⌋).toNat := by
  have hq0 : (0 : ℚ) ≤ q * 255 := by positivity
  unfold DenormalizeInt cppTrunc
  rw [if_pos hq0]
  apply Nat.mod_eq_of_lt
  have h255 : q * 255 ≤ 255 := by nlinarith
  have hfl : ⌊q * 255⌋ ≤ 255 := by
    have h := Int.floor_le_floor (α := ℚ) h255
    simpa using h
  omega

theorem writePixel_get_0 (buf : Buffer) (addr : ℕ) (c : Colour) :
    writePixel buf addr c addr = 255 := by
  simp [writePixel, writeByte]

theorem writePixel_get_1 (buf : Buffer) (addr : ℕ) (c : Colour) :
    writePixel buf addr c (addr + 1) = c.blue := by
  simp [writePixel, writeByte]

theorem writePixel_get_2 (buf : Buffer) (addr : ℕ) (c : Colour) :
    writePixel buf addr c (addr + 2) = c.green := by
  simp [writePixel, writeByte]

theorem writePixel_get_3 (buf : Buffer) (addr : ℕ) (c : Colour) :
    writePixel buf addr c (addr + 3) = c.red := by
  simp [writePixel, writeByte]

theorem writePixel_get_out (buf : Buffer) (addr : ℕ) (c : Colour) (a : ℕ)
    (h : a < addr ∨ addr + 4 ≤ a) :
    writePixel buf addr c a = buf a := by
  have h0 : a ≠ addr := by omega
  have h1 : a ≠ addr + 1 := by omega
  have h2 : a ≠ addr + 2 := by omega
  have h3 : a ≠ addr + 3 := by omega
  simp [writePixel, writeByte, h0, h1, h2, h3]

theorem fillRow_get_out (f : ℚ → ℚ → Colour) (w h p i : ℕ) :
    ∀ (n : ℕ) (buf : Buffer) (a : ℕ), (a < i * p ∨ i * p + n * 4 ≤ a) →
      fillRow f w h p i n buf a = buf a := by
  intro n
  induction n with
  | zero => intro buf a _; rfl
  | succ n ih =>
    intro buf a ha
    simp only [fillRow]
    rw [writePixel_get_out _ _ _ _ (by omega)]
    exact ih buf a (by omega)

theorem fillRow_get_pixel (f : ℚ → ℚ → Colour) (w h p i : ℕ) :
    ∀ (n : ℕ) (buf : Buffer) (j : ℕ), j < n →
      fillRow f w h p i n buf (i * p + j * 4) = 255
      ∧ fillRow f w h p i n buf (i * p + j * 4 + 1) = (pixelColour f w h j i).blue
      ∧ fillRow f w h p i n buf (i * p + j * 4 + 2) = (pixelColour f w h j i).green
      ∧ fillRow f w h p i n buf (i * p + j * 4 + 3) = (pixelColour f w h j i).red := by
  intro n
  induction n with
  | zero => intro buf j hj; omega
  | succ n ih =>
    intro buf j hj
    simp only [fillRow]
    by_cases hjn : j = n
    · subst hjn
      exact ⟨writePixel_get_0 _ _ _, writePixel_get_1 _ _ _,
        writePixel_get_2 _ _ _, writePixel_get_3 _ _ _⟩
    · have hj' : j < n := by omega
      refine ⟨?_, ?_, ?_, ?_⟩
      · rw [writePixel_get_out _ _ _ _ (by omega)]
        exact (ih buf j hj').1
      · rw [writePixel_get_out _ _ _ _ (by omega)]
        exact (ih buf j hj').2.1
      · rw [writePixel_get_out _ _ _ _ (by omega)]
        exact (ih buf j hj').2.2.1
      · rw [writePixel_get_out _ _ _ _ (by omega)]
        exact (ih buf j hj').2.2.2

theorem fillBand_get_out (f : ℚ → ℚ → Colour) (w h p start : ℕ) :
    ∀ (count : ℕ) (buf : Buffer) (a : ℕ),
      (∀ r, start ≤ r → r < start + count → a < r * p ∨ r * p + w * 4 ≤ a) →
      fillBand f w h p start count buf a = buf a := by
  intro count
  induction count with
  | zero => intro buf a _; rfl
  | succ n ih =>
    intro buf a ha
    simp only [fillBand]
    rw [fillRow_get_out f w h p (start + n) w _ a
      (ha (start + n) (by omega) (by omega))]
    exact ih buf a (fun r h1 h2 => ha r h1 (by omega))

theorem fillBand_get_pixel (f : ℚ → ℚ → Colour) (w h p start : ℕ)
    (hp : 4 * w ≤ p) :
    ∀ (count : ℕ) (buf : Buffer) (i j : ℕ),
      start ≤ i → i < start + count → j < w →
      fillBand f w h p start count buf (i * p + j * 4) = 255
      ∧ fillBand f w h p start count buf (i * p + j * 4 + 1) = (pixelColour f w h j i).blue
      ∧ fillBand f w h p start count buf (i * p + j * 4 + 2) = (pixelColour f w h j i).green
      ∧ fillBand f w h p start count buf (i * p + j * 4 + 3) = (pixelColour f w h j i).red := by
  intro count
  induction count with
  | zero => intro buf i j hi1 hi2 hj; omega
  | succ n ih =>
    intro buf i j hi1 hi2 hj
    simp only [fillBand]
    by_cases hin : i = start + n
    · subst hin
      exact fillRow_get_pixel f w h p (start + n) w _ j hj
    · have hi2' : i < start + n := by omega
      have key : i * p + j * 4 + 3 < (start + n) * p := by
        have h2 : (i + 1) * p ≤ (start + n) * p :=
          Nat.mul_le_mul_right p (by omega)
        have h3 : i * p + p = (i + 1) * p := by ring
        omega
      refine ⟨?_, ?_, ?_, ?_⟩
      · rw [fillRow_get_out f w h p (start + n) w _ _ (Or.inl (by omega))]
        exact (ih buf i j hi1 hi2' hj).1
      · rw [fillRow_get_out f w h p (start + n) w _ _ (Or.inl (by omega))]
        exact (ih buf i j hi1 hi2' hj).2.1
      · rw [fillRow_get_out f w h p (start + n) w _ _ (Or.inl (by omega))]
        exact (ih buf i j hi1 hi2' hj).2.2.1
      · rw [fillRow_get_out f w h p (start + n) w _ _ (Or.inl (by omega))]
        exact (ih buf i j hi1 hi2' hj).2.2.2

theorem fillBand_add (f : ℚ → ℚ → Colour) (w h p s : ℕ) :
    ∀ (m n : ℕ) (buf : Buffer),
      fillBand f w h p s (m + n) buf =
        fillBand f w h p (s + m) n (fillBand f w h p s m buf) := by
  intro m n
  induction n with
  | zero => intro buf; rfl
  | succ n ih =>
    intro buf
    rw [show m + (n + 1) = (m + n) + 1 from rfl]
    simp only [fillBand]
    rw [ih, Nat.add_assoc]

theorem runThreads_eq_fillBand (f : ℚ → ℚ → Colour) (w h p N : ℕ) :
    ∀ (t : ℕ) (buf : Buffer),
      runThreads f w h p N t buf = fillBand f w h p 0 (t * h / N) buf := by
  intro t
  induction t with
  | zero =>
    intro buf
    rw [Nat.zero_mul, Nat.zero_div]
    rfl
  | succ t ih =>
    intro buf
    simp only [runThreads]
    rw [ih]
    have hle : t * h / N ≤ (t + 1) * h / N :=
      Nat.div_le_div_right (Nat.mul_le_mul_right h (by omega))
    have hsplit : (t + 1) * h / N = t * h / N + ((t + 1) * h / N - t * h / N) := by
      omega
    rw [hsplit, fillBand_add f w h p 0 (t * h / N) ((t + 1) * h / N - t * h / N) buf,
      Nat.zero_add, Nat.add_sub_cancel_left]

theorem generate_pixels_eq_seq (buf : Buffer) (w h p : ℕ) (f : ℚ → ℚ → Colour) :
    generate_pixels buf w h p f = fillBand f w h p 0 h buf := by
  unfold generate_pixels
  rw [runThreads_eq_fillBand f w h p 3 3 buf,
    Nat.mul_div_cancel_left h (by norm_num)]

theorem bandStart_mono (height N : ℕ) {k l : ℕ} (hkl : k ≤ l) :
    bandStart height N k ≤ bandStart height N l :=
  Nat.div_le_div_right (Nat.mul_le_mul_right height hkl)

theorem bandEnd_eq (height N k : ℕ) :
    bandEnd height N k = bandStart height N (k + 1) := rfl

theorem bandStart_last (height N : ℕ) (hN : 0 < N) :
    bandStart height N N = height := by
  unfold bandStart
  exact Nat.mul_div_cancel_left height hN

theorem band_cover_aux (height N r : ℕ) :
    ∀ t, r < bandStart height N t →
      ∃ k, k < t ∧ bandStart height N k ≤ r ∧ r < bandEnd height N k := by
  intro t
  induction t with
  | zero => intro hr; simp [bandStart] at hr
  | succ t ih =>
    intro hr
    by_cases hs : bandStart height N t ≤ r
    · exact ⟨t, Nat.lt_succ_self t, hs, hr⟩
    · obtain ⟨k, hk, h1, h2⟩ := ih (Nat.lt_of_not_le hs)
      exact ⟨k, Nat.lt_succ_of_lt hk, h1, h2⟩

/-! Claim theorems. -/

/-- C1: for every height > 0 and worker count N > 0, the bands
[k*height/N, (k+1)*height/N) for k < N are pairwise disjoint and their
union is exactly the row range [0, height). -/
theorem spec_c1_bands_partition : ∀ height N : ℕ, 0 < height → 0 < N →
    (∀ k l, k < N → l < N → k ≠ l →
      ∀ r, ¬(bandStart height N k ≤ r ∧ r < bandEnd height N k ∧
              bandStart height N l ≤ r ∧ r < bandEnd height N l))
    ∧ (∀ r, r < height ↔
        ∃ k, k < N ∧ bandStart height N k ≤ r ∧ r < bandEnd height N k) := by
  intro height N _ hN
  constructor
  · rintro k l _ _ hne r ⟨h1, h2, h13, h4⟩
    rcases Nat.lt_or_ge k l with hkl | hkl
    · have hm : bandStart height N (k + 1) ≤ bandStart height N l :=
        bandStart_mono height N hkl
      rw [bandEnd_eq] at h2
      omega
    · have hlk : l < k := Nat.lt_of_le_of_ne hkl (Ne.symm hne)
      have hm : bandStart height N (l + 1) ≤ bandStart height N k :=
        bandStart_mono height N hlk
      rw [bandEnd_eq] at h4
      omega
  · intro r
    constructor
    · intro hr
      have hr2 : r < bandStart height N N := by
        rw [bandStart_last height N hN]
        exact hr
      exact band_cover_aux height N r N hr2
    · rintro ⟨k, hk, h1, h2⟩
      have h4 : bandStart height N (k + 1) ≤ bandStart height N N :=
        bandStart_mono height N hk
      rw [bandEnd_eq] at h2
      rw [bandStart_last height N hN] at h4
      omega

/-- C1 witness: the partition property instantiated at height = 7, N = 3,
where height is not divisible by N. -/
theorem spec_c1_bands_partition_witness :
    0 < 7 ∧ 0 < 3
    ∧ ((∀ k l, k < 3 → l < 3 → k ≠ l →
        ∀ r, ¬(bandStart 7 3 k ≤ r ∧ r < bandEnd 7 3 k ∧
                bandStart 7 3 l ≤ r ∧ r < bandEnd 7 3 l))
      ∧ (∀ r, r < 7 ↔
          ∃ k, k < 3 ∧ bandStart 7 3 k ≤ r ∧ r < bandEnd 7 3 k)) :=
  ⟨by decide, by decide, spec_c1_bands_partition 7 3 (by decide) (by decide)⟩

/-- C2: after generate_pixels, every pixel (row i, column j) holds the
four bytes 0xFF, blue, green, red of f(j/width, i/height) at offsets
i*pitch + j*4 + 0..3, and the normalized coordinates lie in [0, 1). -/
theorem spec_c2_pixel_bytes :
    ∀ (f : ℚ → ℚ → Colour) (w h p : ℕ) (buf : Buffer) (i j : ℕ),
    i < h → j < w → 4 * w ≤ p →
    (0 : ℚ) ≤ (j : ℚ) / (w : ℚ) ∧ (j : ℚ) / (w : ℚ) < 1
    ∧ (0 : ℚ) ≤ (i : ℚ) / (h : ℚ) ∧ (i : ℚ) / (h : ℚ) < 1
    ∧ generate_pixels buf w h p f (i * p + j * 4) = 255
    ∧ generate_pixels buf w h p f (i * p + j * 4 + 1) =
        (f ((j : ℚ) / (w : ℚ)) ((i : ℚ) / (h : ℚ))).blue
    ∧ generate_pixels buf w h p f (i * p + j * 4 + 2) =
        (f ((j : ℚ) / (w : ℚ)) ((i : ℚ) / (h : ℚ))).green
    ∧ generate_pixels buf w h p f (i * p + j * 4 + 3) =
        (f ((j : ℚ) / (w : ℚ)) ((i : ℚ) / (h : ℚ))).red := by
  intro f w h p buf i j hi hj hp
  have hw0 : (0 : ℚ) < (w : ℚ) := by
    have hw : 0 < w := by omega
    exact_mod_cast hw
  have hh0 : (0 : ℚ) < (h : ℚ) := by
    have hh : 0 < h := by omega
    exact_mod_cast hh
  have hx0 : (0 : ℚ) ≤ (j : ℚ) / (w : ℚ) := by positivity
  have hx1 : (j : ℚ) / (w : ℚ) < 1 := by
    rw [div_lt_one hw0]
    exact_mod_cast hj
  have hy0 : (0 : ℚ) ≤ (i : ℚ) / (h : ℚ) := by positivity
  have hy1 : (i : ℚ) / (h : ℚ) < 1 := by
    rw [div_lt_one hh0]
    exact_mod_cast hi
  have hpx := fillBand_get_pixel f w h p 0 hp h buf i j (by omega) (by omega) hj
  rw [generate_pixels_eq_seq buf w h p f]
  exact ⟨hx0, hx1, hy0, hy1, hpx.1, hpx.2.1, hpx.2.2.1, hpx.2.2.2⟩

/-- C2 witness: the pixel-byte property at the bottom-right pixel of a
2 by 2 gradient image with pitch 8, starting from a zeroed buffer. -/
theorem spec_c2_pixel_bytes_witness :
    1 < 2 ∧ 1 < 2 ∧ 4 * 2 ≤ 8
    ∧ ((0 : ℚ) ≤ (1 : ℚ) / (2 : ℚ) ∧ (1 : ℚ) / (2 : ℚ) < 1
      ∧ (0 : ℚ) ≤ (1 : ℚ) / (2 : ℚ) ∧ (1 : ℚ) / (2 : ℚ) < 1
      ∧ generate_pixels (fun _ => 0) 2 2 8 gradient (1 * 8 + 1 * 4) = 255
      ∧ generate_pixels (fun _ => 0) 2 2 8 gradient (1 * 8 + 1 * 4 + 1) =
          (gradient ((1 : ℚ) / (2 : ℚ)) ((1 : ℚ) / (2 : ℚ))).blue
      ∧ generate_pixels (fun _ => 0) 2 2 8 gradient (1 * 8 + 1 * 4 + 2) =
          (gradient ((1 : ℚ) / (2 : ℚ)) ((1 : ℚ) / (2 : ℚ))).green
      ∧ generate_pixels (fun _ => 0) 2 2 8 gradient (1 * 8 + 1 * 4 + 3) =
          (gradient ((1 : ℚ) / (2 : ℚ)) ((1 : ℚ) / (2 : ℚ))).red) :=
  ⟨by decide, by decide, by decide,
   spec_c2_pixel_bytes gradient 2 2 8 (fun _ => 0) 1 1 (by decide) (by decide)
     (by decide)⟩

/-- C3: the parallel fill with any worker count N >= 1 computes the same
final buffer as the sequential fill of all rows; in particular
generate_pixels (N = 3) equals the sequential fill. -/
theorem spec_c3_worker_count_independent :
    ∀ (f : ℚ → ℚ → Colour) (w h p N : ℕ) (buf : Buffer), 0 < N →
    runThreads f w h p N N buf = fillBand f w h p 0 h buf
    ∧ generate_pixels buf w h p f = fillBand f w h p 0 h buf := by
  intro f w h p N buf hN
  constructor
  · rw [runThreads_eq_fillBand f w h p N N buf, Nat.mul_div_cancel_left h hN]
  · exact generate_pixels_eq_seq buf w h p f

/-- C3 witness: the 100 by 50, pitch 400 gradient scenario with 7 workers
agrees with the sequential fill. -/
theorem spec_c3_worker_count_independent_witness :
    0 < 7
    ∧ (runThreads gradient 100 50 400 7 7 (fun _ => 0) =
        fillBand gradient 100 50 400 0 50 (fun _ => 0)
      ∧ generate_pixels (fun _ => 0) 100 50 400 gradient =
          fillBand gradient 100 50 400 0 50 (fun _ => 0)) :=
  ⟨by decide,
   spec_c3_worker_count_independent gradient 100 50 400 7 (fun _ => 0) (by decide)⟩

/-- C4 counterexample: julia(v0, 0) with v0 = 3/2 (escaping after one
iteration, grayscale 1/200) differs from mandelbrot at the point
(7/8, 1/2) whose coordinate maps to c = v0 (which escapes after two
iterations, grayscale 2/200). -/
theorem spec_c4_counterexample :
    mandelbrot (7/8) (1/2) ≠ julia ⟨3/2, 0⟩ ⟨0, 0⟩ := by
  rw [mandelbrot_at_78_12, julia_at_three_halves]
  decide

/-- C4 amended: the kernels agree the other way round: julia with
starting value 0 and constant c equal to Mandelbrot's coordinate
(4x-2) + (4y-2)i returns the same Colour as mandelbrot(x, y). -/
theorem spec_c4_amended : ∀ x y : ℚ,
    mandelbrot x y = julia ⟨0, 0⟩ ⟨x * 4 - 2, y * 4 - 2⟩ :=
  fun _ _ => rfl

/-- C5: mandelbrot(1/2, 1/2) maps to c = (0, 0), whose orbit stays at 0
through every iteration, and returns black; mandelbrot(1, 1) maps to
c = (2, 2), escapes on iteration 1, and returns the non-black grayscale
whose channels are the byte encoding of min(1, 1/200). -/
theorem spec_c5_mandelbrot_points :
    mandelbrot (1/2) (1/2) = Colour.mk 0 0 0
    ∧ (∀ n, escapeSteps ⟨0, 0⟩ n ⟨0, 0⟩ = (n, ⟨0, 0⟩))
    ∧ (escapeSteps ⟨2, 2⟩ 1000 ⟨0, 0⟩).1 = 1
    ∧ mandelbrot 1 1 =
        Colour.ofNormalized (min 1 ((1:ℚ)/200)) (min 1 ((1:ℚ)/200)) (min 1 ((1:ℚ)/200))
    ∧ mandelbrot 1 1 = Colour.mk 1 1 1
    ∧ Colour.mk 1 1 1 ≠ Colour.mk 0 0 0 := by
  have hm11 : mandelbrot 1 1 = Colour.mk 1 1 1 := by
    have hc : (⟨(1:ℚ) * 4 - 2, (1:ℚ) * 4 - 2⟩ : ComplexQ) = ⟨2, 2⟩ := by norm_num
    simp only [mandelbrot]
    rw [hc, escapeSteps_c_two_two]
    norm_num [ComplexQ.normSq, min_def, Colour.ofNormalized, DenormalizeInt, cppTrunc]
  refine ⟨?_, escapeSteps_zero_zero, by rw [escapeSteps_c_two_two], ?_, hm11, by decide⟩
  · have hc : (⟨(1:ℚ)/2 * 4 - 2, (1:ℚ)/2 * 4 - 2⟩ : ComplexQ) = ⟨0, 0⟩ := by norm_num
    simp only [mandelbrot]
    rw [hc, escapeSteps_zero_zero 1000]
    norm_num [ComplexQ.normSq, ofNormalized_zero]
  · rw [hm11]
    have hmin : min (1:ℚ) ((1:ℚ)/200) = 1/200 := by
      rw [min_def]
      norm_num
    rw [hmin]
    norm_num [Colour.ofNormalized, DenormalizeInt, cppTrunc]

/-- C6: constructing a Colour from normalized values in [0, 1] truncates
v * 255 toward zero: each channel equals the floor of v * 255 (floor and
truncation agree on nonnegative values). -/
theorem spec_c6_colour_truncation :
    ∀ r g b : ℚ, 0 ≤ r → r ≤ 1 → 0 ≤ g → g ≤ 1 → 0 ≤ b → b ≤ 1 →
    Colour.ofNormalized r g b =
      Colour.mk (⌊r * 255⌋).toNat (⌊g * 255⌋).toNat (⌊b * 255⌋).toNat := by
  intro r g b h0r h1r h0g h1g h0b h1b
  simp [Colour.ofNormalized, DenormalizeInt_eq_floor, *]

/-- C6 witness: the constructor at the top of the range, v = 1, where the
channel is the truncation of 255. -/
theorem spec_c6_colour_truncation_witness :
    ((0:ℚ) ≤ 1 ∧ (1:ℚ) ≤ 1)
    ∧ Colour.ofNormalized 1 1 1 =
        Colour.mk (⌊(1:ℚ) * 255⌋).toNat (⌊(1:ℚ) * 255⌋).toNat (⌊(1:ℚ) * 255⌋).toNat :=
  ⟨⟨by norm_num, by norm_num⟩,
   spec_c6_colour_truncation 1 1 1 (by norm_num) (by norm_num) (by norm_num)
     (by norm_num) (by norm_num) (by norm_num)⟩

/-- C7: for every byte value b in [0, 255], DenormalizeInt(NormalizeInt(b))
returns b exactly, hence within 1 unit of b. -/
theorem spec_c7_roundtrip : ∀ b : ℕ, b ≤ 255 →
    DenormalizeInt (NormalizeInt b) = b
    ∧ ((DenormalizeInt (NormalizeInt b) : ℤ) - (b : ℤ)).natAbs ≤ 1 := by
  intro b hb
  have key : DenormalizeInt (NormalizeInt b) = b := by
    unfold DenormalizeInt NormalizeInt cppTrunc
    have harg : (b : ℚ) * (1 / 255) * 255 = (b : ℚ) := by
      field_simp
    rw [harg, if_pos (by positivity), Int.floor_natCast]
    simp [Nat.mod_eq_of_lt (by omega : b < 256)]
  refine ⟨key, ?_⟩
  rw [key]
  simp

/-- C7 witness: the round trip at b = 128. -/
theorem spec_c7_roundtrip_witness :
    128 ≤ 255
    ∧ (DenormalizeInt (NormalizeInt 128) = 128
        ∧ ((DenormalizeInt (NormalizeInt 128) : ℤ) - (128 : ℤ)).natAbs ≤ 1) :=
  ⟨by decide, spec_c7_roundtrip 128 (by decide)⟩

/-- C8: if SDL_Init returns nonzero or any of the window, renderer or
texture constructors returns null, main reports the single SDL error
message and returns exit status 1. -/
theorem spec_c8_sdl_failure : ∀ env : SdlEnv,
    (env.initResult ≠ 0 ∨ env.windowPtr = none ∨ env.rendererPtr = none ∨
      env.texturePtr = none) →
    mainExit env = (1, some env.sdlError) := by
  intro env h
  obtain ⟨ir, w, r, t, err⟩ := env
  by_cases hir : ir = 0
  · subst hir
    rcases w with _ | w
    · simp [mainExit, mainSetup, initialise_sdl, make_unique_ptr_sdl, Bind.bind,
        Except.bind]
    · rcases r with _ | r
      · simp [mainExit, mainSetup, initialise_sdl, make_unique_ptr_sdl, Bind.bind,
          Except.bind]
      · rcases t with _ | t
        · simp [mainExit, mainSetup, initialise_sdl, make_unique_ptr_sdl, Bind.bind,
            Except.bind]
        · simp only at h
          rcases h with h | h | h | h <;> simp_all
  · simp [mainExit, mainSetup, initialise_sdl, hir, Bind.bind, Except.bind]

/-- C8 witness: a failing SDL_Init (return value 1) with the error
message set to boom produces exit status 1 carrying that message. -/
theorem spec_c8_sdl_failure_witness :
    ((1 : ℤ) ≠ 0 ∨ (some () : Option Unit) = none ∨ (some () : Option Unit) = none
      ∨ (some () : Option Unit) = none)
    ∧ mainExit ⟨1, some (), some (), some (), "boom"⟩ = (1, some "boom") :=
  ⟨Or.inl (by decide),
   spec_c8_sdl_failure ⟨1, some (), some (), some (), "boom"⟩ (Or.inl (by decide))⟩

/-- C9: generate_pixels leaves every padding byte (row offset in
[width*4, pitch)) and every byte at or beyond height*pitch unchanged. -/
theorem spec_c9_frame :
    ∀ (f : ℚ → ℚ → Colour) (w h p : ℕ) (buf : Buffer), 4 * w ≤ p →
    (∀ i k, i < h → 4 * w ≤ k → k < p →
      generate_pixels buf w h p f (i * p + k) = buf (i * p + k))
    ∧ (∀ a, h * p ≤ a → generate_pixels buf w h p f a = buf a) := by
  intro f w h p buf hp
  constructor
  · intro i k hi hk1 hk2
    rw [generate_pixels_eq_seq buf w h p f]
    apply fillBand_get_out
    intro r _ hrh
    rcases Nat.lt_trichotomy r i with hri | hri | hri
    · right
      have h1 : (r + 1) * p ≤ i * p := Nat.mul_le_mul_right p (by omega)
      have h2 : r * p + p = (r + 1) * p := by ring
      omega
    · subst hri
      right
      omega
    · left
      have h1 : (i + 1) * p ≤ r * p := Nat.mul_le_mul_right p (by omega)
      have h2 : i * p + p = (i + 1) * p := by ring
      omega
  · intro a ha
    rw [generate_pixels_eq_seq buf w h p f]
    apply fillBand_get_out
    intro r _ hrh
    right
    have h1 : (r + 1) * p ≤ h * p := Nat.mul_le_mul_right p (by omega)
    have h2 : r * p + p = (r + 1) * p := by ring
    omega

/-- C9 witness: a 1 by 1 image with pitch 8 over the constant-7 buffer:
the padding byte at offset 5 and the byte at address 12 keep value 7. -/
theorem spec_c9_frame_witness :
    4 * 1 ≤ 8
    ∧ generate_pixels (fun _ => 7) 1 1 8 gradient (0 * 8 + 5) = 7
    ∧ generate_pixels (fun _ => 7) 1 1 8 gradient 12 = 7 :=
  ⟨by decide,
   (spec_c9_frame gradient 1 1 8 (fun _ => 7) (by decide)).1 0 5 (by decide)
     (by decide) (by decide),
   (spec_c9_frame gradient 1 1 8 (fun _ => 7) (by decide)).2 12 (by decide)⟩

/-- C10: when the starting value already has magnitude at least 2, julia
performs zero iterations and returns black, for every constant c. -/
theorem spec_c10_julia_escaped_start : ∀ v c : ComplexQ, 4 ≤ v.normSq →
    (escapeSteps c 1000 v).1 = 0 ∧ julia v c = Colour.mk 0 0 0 := by
  intro v c h
  have hs : escapeSteps c 1000 v = (0, v) := by
    rw [show (1000 : ℕ) = 999 + 1 by decide]
    exact escapeSteps_stop c v 999 (not_lt.mpr h)
  refine ⟨by rw [hs], ?_⟩
  simp only [julia, hs]
  norm_num [min_def, ofNormalized_zero, ite_self]

/-- C10 witness: v0 = 2 (magnitude exactly 2) with c = 0 yields zero
iterations and black. -/
theorem spec_c10_julia_escaped_start_witness :
    4 ≤ (ComplexQ.mk 2 0).normSq
    ∧ ((escapeSteps ⟨0, 0⟩ 1000 ⟨2, 0⟩).1 = 0
        ∧ julia ⟨2, 0⟩ ⟨0, 0⟩ = Colour.mk 0 0 0) :=
  ⟨by norm_num [ComplexQ.normSq],
   spec_c10_julia_escaped_start ⟨2, 0⟩ ⟨0, 0⟩ (by norm_num [ComplexQ.normSq])⟩

end Fractals
